import Mathlib

/-!
Verification of the `kudasai` Option library
(`src/packages/option/src/index.ts`).

The TypeScript source defines a closed sum type `Option<T> = Some<T> | None`
with combinators (`isSome`, `isSomeAnd`, `isNone`, `isNoneOr`, `and`,
`andThen`, `or`, `orElse`, `map`), constructors `some` / `none`, and a
`collect` function folding an iterable of options into an option of an array.

We embed the type as a two-constructor inductive and each method as a Lean
function performing the same case analysis as the corresponding class method.
To reason about how often a supplied callback is invoked (or an iterable
element is realized), we additionally embed each higher-order method with the
callback in an explicit counting form `A → Nat → B × Nat`: the method body
threads the counter exactly where the source invokes the callback, and
`tally f` wraps a pure callback so each invocation increments the counter.
-/

namespace Kudasai

/-- The sum type `Option<T> = Some<T> | None`.  The `Some` class stores its
constructor argument in the public field `value`; `None` carries nothing. -/
inductive Option (T : Type) where
  | some (value : T)
  | none
deriving DecidableEq

/-- `export function some<T>(value: T): Option<T> { return new Some(value); }` -/
def some {T : Type} (value : T) : Option T :=
  Option.some value

/-- `export const none: Option<never> = new None();` -/
def none {T : Type} : Option T :=
  Option.none

namespace Option

/-- `Some.isSome` returns `true`; `None.isSome` returns `false`. -/
def isSome {T : Type} : Option T → Bool
  | .some _ => true
  | .none => false

/-- `Some.isNone` returns `false`; `None.isNone` returns `true`. -/
def isNone {T : Type} : Option T → Bool
  | .some _ => false
  | .none => true

/-- `Some.isSomeAnd(fn)` returns `fn(this.value)`; `None.isSomeAnd` returns
`false`. -/
def isSomeAnd {T : Type} (o : Option T) (fn : T → Bool) : Bool :=
  match o with
  | .some v => fn v
  | .none => false

/-- `Some.isNoneOr(fn)` returns `fn(this.value)`; `None.isNoneOr` returns
`true`. -/
def isNoneOr {T : Type} (o : Option T) (fn : T → Bool) : Bool :=
  match o with
  | .some v => fn v
  | .none => true

/-- `Some.and(other)` returns `other`; `None.and(other)` returns `this`
(the none value). -/
def and {T U : Type} (o : Option T) (other : Option U) : Option U :=
  match o with
  | .some _ => other
  | .none => Option.none

/-- `Some.andThen(fn)` returns `fn(this.value)`; `None.andThen` returns
`this` (the none value). -/
def andThen {T U : Type} (o : Option T) (fn : T → Option U) : Option U :=
  match o with
  | .some v => fn v
  | .none => Option.none

/-- `Some.or(other)` returns `this`; `None.or(other)` returns `other`. -/
def or {T : Type} (o : Option T) (other : Option T) : Option T :=
  match o with
  | .some _ => o
  | .none => other

/-- `Some.orElse(fn)` returns `this`; `None.orElse(fn)` returns `fn()`. -/
def orElse {T : Type} (o : Option T) (fn : Unit → Option T) : Option T :=
  match o with
  | .some _ => o
  | .none => fn ()

/-- `Some.map(fn)` returns `some(fn(this.value))`; `None.map` returns `this`
(the none value). -/
def map {T U : Type} (o : Option T) (fn : T → U) : Option U :=
  match o with
  | .some v => Kudasai.some (fn v)
  | .none => Option.none

/-- The public field `value` of the `Some` class, readable once the option is
known to be `Some` (in the source this knowledge is the `this is Some<T>`
narrowing produced by the predicates). -/
def value {T : Type} : (o : Option T) → o.isSome = true → T
  | .some v, _ => v
  | .none, h => nomatch h

/-- Counting embedding of `isSomeAnd`: the callback threads a counter. -/
def isSomeAndM {T : Type} (o : Option T) (fn : T → Nat → Bool × Nat) :
    Nat → Bool × Nat :=
  match o with
  | .some v => fn v
  | .none => fun n => (false, n)

/-- Counting embedding of `isNoneOr`: the callback threads a counter. -/
def isNoneOrM {T : Type} (o : Option T) (fn : T → Nat → Bool × Nat) :
    Nat → Bool × Nat :=
  match o with
  | .some v => fn v
  | .none => fun n => (true, n)

/-- Counting embedding of `andThen`: the callback threads a counter. -/
def andThenM {T U : Type} (o : Option T) (fn : T → Nat → Option U × Nat) :
    Nat → Option U × Nat :=
  match o with
  | .some v => fn v
  | .none => fun n => (Option.none, n)

/-- Counting embedding of `orElse`: the thunk threads a counter. -/
def orElseM {T : Type} (o : Option T) (fn : Unit → Nat → Option T × Nat) :
    Nat → Option T × Nat :=
  match o with
  | .some v => fun n => (Option.some v, n)
  | .none => fn ()

/-- Counting embedding of `map`: the callback threads a counter. -/
def mapM {T U : Type} (o : Option T) (fn : T → Nat → U × Nat) :
    Nat → Option U × Nat :=
  match o with
  | .some v => fun n =>
    let p := fn v n
    (Kudasai.some p.1, p.2)
  | .none => fun n => (Option.none, n)

end Option

/-- Wraps a pure callback so that each invocation increments the counter. -/
def tally {A B : Type} (f : A → B) : A → Nat → B × Nat :=
  fun a n => (f a, n + 1)

theorem isSome_of_not_isNone {T : Type} {o : Option T}
    (h : ¬ o.isNone = true) : o.isSome = true := by
  cases o with
  | some v => rfl
  | none => exact absurd rfl h

/-- The loop of `collect`, with the accumulated array `result`:
for each element, `if (option.isNone()) return none;` then
`result.push(option.value)`; at the end `return some(result)`. -/
def collect.go {T : Type} (result : List T) :
    List (Option T) → Option (List T)
  | [] => Kudasai.some result
  | o :: rest =>
    if h : o.isNone = true then Kudasai.none
    else collect.go (result ++ [o.value (isSome_of_not_isNone h)]) rest

/-- `export function collect<T>(options: Iterable<Option<T>>): Option<T[]>`,
with the iterable embedded as the list of elements it yields. -/
def collect {T : Type} (options : List (Option T)) : Option (List T) :=
  collect.go [] options

/-- The loop of `collect` where producing each element of the iterable is an
explicit counting action `Nat → Option T × Nat`: the loop runs the action for
the next element (realizing it) exactly when the `for … of` iteration reaches
it. -/
def collectM.go {T : Type} (result : List T) :
    List (Nat → Option T × Nat) → Nat → Option (List T) × Nat
  | [] => fun n => (Kudasai.some result, n)
  | act :: rest => fun n =>
    let p := act n
    if h : p.1.isNone = true then (Kudasai.none, p.2)
    else collectM.go (result ++ [p.1.value (isSome_of_not_isNone h)]) rest p.2

/-- `collect` over a lazily produced iterable: each element is a counting
action realized only when the traversal reaches it. -/
def collectM {T : Type} (acts : List (Nat → Option T × Nat)) :
    Nat → Option (List T) × Nat :=
  collectM.go [] acts

/-- An iterable element that increments the realization counter when it is
produced and yields the option `o`. -/
def emit {T : Type} (o : Option T) : Nat → Option T × Nat :=
  fun n => (o, n + 1)

theorem collect_go_cons_some {T : Type} (acc : List T) (v : T)
    (rest : List (Option T)) :
    collect.go acc (Kudasai.some v :: rest) = collect.go (acc ++ [v]) rest := by
  simp [collect.go, Kudasai.some, Option.isNone, Option.value]

theorem collect_go_cons_none {T : Type} (acc : List T)
    (rest : List (Option T)) :
    collect.go acc (Kudasai.none :: rest) = Kudasai.none := by
  simp [collect.go, Kudasai.none, Option.isNone]

theorem collect_go_map_some {T : Type} (l : List T) :
    ∀ acc : List T, collect.go acc (l.map Kudasai.some) = Kudasai.some (acc ++ l) := by
  induction l with
  | nil => intro acc; simp [collect.go]
  | cons x xs ih =>
    intro acc
    rw [List.map_cons, collect_go_cons_some, ih]
    simp

theorem collect_go_of_mem_none {T : Type} (l : List (Option T))
    (h : Kudasai.none ∈ l) :
    ∀ acc : List T, collect.go acc l = Kudasai.none := by
  induction l with
  | nil => exact absurd h (List.not_mem_nil _)
  | cons x xs ih =>
    intro acc
    cases x with
    | some v =>
      rw [show Kudasai.Option.some v = Kudasai.some v from rfl,
        collect_go_cons_some]
      refine ih ?_ _
      rcases List.mem_cons.mp h with h1 | h1
      · exact absurd h1 (by simp [Kudasai.none, Kudasai.some])
      · exact h1
    | none => exact collect_go_cons_none acc xs

theorem collectM_go_cons_emit_some {T : Type} (acc : List T) (v : T)
    (rest : List (Nat → Option T × Nat)) (n : Nat) :
    collectM.go acc (emit (Kudasai.some v) :: rest) n
      = collectM.go (acc ++ [v]) rest (n + 1) := by
  simp [collectM.go, emit, Kudasai.some, Option.isNone, Option.value]

theorem collectM_go_cons_emit_none {T : Type} (acc : List T)
    (rest : List (Nat → Option T × Nat)) (n : Nat) :
    collectM.go acc (emit Kudasai.none :: rest) n = (Kudasai.none, n + 1) := by
  simp [collectM.go, emit, Kudasai.none, Option.isNone]

theorem collectM_go_count {T : Type} (vs : List T)
    (tail : List (Nat → Option T × Nat)) :
    ∀ (acc : List T) (n : Nat),
      collectM.go acc
        (vs.map (fun v => emit (Kudasai.some v)) ++ emit Kudasai.none :: tail) n
        = (Kudasai.none, n + vs.length + 1) := by
  induction vs with
  | nil =>
    intro acc n
    rw [List.map_nil, List.nil_append, collectM_go_cons_emit_none]
    simp
  | cons x xs ih =>
    intro acc n
    rw [List.map_cons, List.cons_append, collectM_go_cons_emit_some, ih]
    simp only [List.length_cons]
    congr 1
    omega

/-- Claim C1: for every finite input sequence whose elements are all `Some`,
`collect` returns `Some` of the array of the wrapped values in the same order
as the input; in particular `collect` of the empty sequence returns `Some` of
the empty array. -/
theorem collect_all_some {T : Type} (l : List T) :
    collect (l.map Kudasai.some) = Kudasai.some l ∧
    collect ([] : List (Option T)) = Kudasai.some [] := by
  refine ⟨?_, rfl⟩
  have h := collect_go_map_some l []
  simpa [collect] using h

/-- Claim C2: for every input sequence containing at least one `None`,
`collect` returns `None`; and when the iterable realizes its elements lazily
(each realization counted by `emit`), the traversal realizes exactly the
elements up to and including the first `None` — the elements after it are
never realized, for any tail. -/
theorem collect_short_circuit {T : Type} (l : List (Option T))
    (h : Kudasai.none ∈ l) (vs : List T)
    (tail : List (Nat → Option T × Nat)) :
    collect l = Kudasai.none ∧
    collectM (vs.map (fun v => emit (Kudasai.some v)) ++ emit Kudasai.none :: tail) 0
      = (Kudasai.none, vs.length + 1) := by
  refine ⟨collect_go_of_mem_none l h [], ?_⟩
  have hc := collectM_go_count vs tail [] 0
  simpa [collectM] using hc

theorem collect_short_circuit_witness :
    collect [Kudasai.some 1, Kudasai.none, Kudasai.some 3] = Kudasai.none ∧
    collectM ([1].map (fun v => emit (Kudasai.some v)) ++
        emit Kudasai.none :: [emit (Kudasai.some 3)]) 0
      = (Kudasai.none, 2) :=
  collect_short_circuit [Kudasai.some 1, Kudasai.none, Kudasai.some 3]
    (by simp [Kudasai.none, Kudasai.some]) [1] [emit (Kudasai.some 3)]

/-- Claim C3: `some(v).andThen(f)` returns `f(v)`; `none.andThen(f)` returns
`None` without invoking `f` (counter stays 0); `some(v).orElse(g)` returns the
receiver unchanged without invoking `g` (counter stays 0); `none.orElse(g)`
returns `g()`. -/
theorem andThen_orElse_spec {T U : Type} (v : T) (f : T → Option U)
    (g : Unit → Option T) :
    (Kudasai.some v).andThen f = f v ∧
    (Kudasai.none : Option T).andThen f = Kudasai.none ∧
    (Kudasai.none : Option T).andThenM (tally f) 0 = (Kudasai.none, 0) ∧
    (Kudasai.some v).orElse g = Kudasai.some v ∧
    (Kudasai.some v).orElseM (tally g) 0 = (Kudasai.some v, 0) ∧
    (Kudasai.none : Option T).orElse g = g () :=
  ⟨rfl, rfl, rfl, rfl, rfl, rfl⟩

/-- Claim C4: `some(v).and(other)` returns `other`, and `none.and(other)`
returns `None` regardless of `other`. -/
theorem and_spec {T U : Type} (v : T) (other : Option U) :
    (Kudasai.some v).and other = other ∧
    (Kudasai.none : Option T).and other = Kudasai.none :=
  ⟨rfl, rfl⟩

/-- Claim C5: `some(v).or(other)` returns the receiver itself, and
`none.or(other)` returns `other`. -/
theorem or_spec {T : Type} (v : T) (other : Option T) :
    (Kudasai.some v).or other = Kudasai.some v ∧
    (Kudasai.none : Option T).or other = other :=
  ⟨rfl, rfl⟩

/-- Claim C6: `map` preserves the variant and never invokes `f` on `None`:
`some(v).map(f) = some(f(v))`, `none.map(f) = none` with `f` never invoked
(counter stays 0), and `some(v).map(id) = some(v)`. -/
theorem map_spec {T U : Type} (v : T) (f : T → U) :
    (Kudasai.some v).map f = Kudasai.some (f v) ∧
    (Kudasai.none : Option T).map f = Kudasai.none ∧
    (Kudasai.none : Option T).mapM (tally f) 0 = (Kudasai.none, 0) ∧
    (Kudasai.some v).map id = Kudasai.some v ∧
    ((Kudasai.some v).map f).isSome = true ∧
    ((Kudasai.none : Option T).map f).isNone = true :=
  ⟨rfl, rfl, rfl, rfl, rfl, rfl⟩

/-- Claim C7: `some(v).isSomeAnd(p)` returns exactly `p(v)`, invoking `p`
exactly once (counter ends at 1); `none.isSomeAnd(p)` returns `false` without
ever invoking `p` (counter stays 0). -/
theorem isSomeAnd_spec {T : Type} (v : T) (p : T → Bool) :
    (Kudasai.some v).isSomeAnd p = p v ∧
    (Kudasai.some v).isSomeAndM (tally p) 0 = (p v, 1) ∧
    (Kudasai.none : Option T).isSomeAnd p = false ∧
    (Kudasai.none : Option T).isSomeAndM (tally p) 0 = (false, 0) :=
  ⟨rfl, rfl, rfl, rfl⟩

/-- Claim C8: `none.isNoneOr(p)` returns `true` without invoking `p` (counter
stays 0); `some(v).isNoneOr(p)` returns exactly `p(v)`; and `isNoneOr` is true
iff the receiver is `None` or is `Some(w)` with `p(w)` true. -/
theorem isNoneOr_spec {T : Type} (v : T) (p : T → Bool) (o : Option T) :
    (Kudasai.none : Option T).isNoneOr p = true ∧
    (Kudasai.none : Option T).isNoneOrM (tally p) 0 = (true, 0) ∧
    (Kudasai.some v).isNoneOr p = p v ∧
    (o.isNoneOr p = true ↔
      o = Kudasai.none ∨ ∃ w, o = Kudasai.some w ∧ p w = true) := by
  refine ⟨rfl, rfl, rfl, ?_⟩
  cases o with
  | some w => simp [Option.isNoneOr, Kudasai.none, Kudasai.some]
  | none => simp [Option.isNoneOr, Kudasai.none, Kudasai.some]

/-- Claim C9: every `Option` is in exactly one of the two variants, `isSome`
and `isNone` always return opposite booleans, and in particular
`some(v).isSome() = true`, `some(v).isNone() = false`,
`none.isSome() = false`, `none.isNone() = true`. -/
theorem variant_dichotomy {T : Type} (o : Option T) (v : T) :
    o.isSome = !o.isNone ∧
    (o = Kudasai.none ∨ ∃ w, o = Kudasai.some w) ∧
    (Kudasai.some v).isSome = true ∧
    (Kudasai.some v).isNone = false ∧
    (Kudasai.none : Option T).isSome = false ∧
    (Kudasai.none : Option T).isNone = true := by
  refine ⟨?_, ?_, rfl, rfl, rfl, rfl⟩
  · cases o <;> rfl
  · cases o with
    | some w => exact Or.inr ⟨w, rfl⟩
    | none => exact Or.inl rfl

/-- Claim C10: the `Some` produced by `some(v)` exposes the public field
`value` holding exactly the value `v` passed in; `collect` reads wrapped
values through this field (the embedding of `collect` accumulates
`o.value …`, and on a singleton all-`Some` input it returns exactly that
field value). -/
theorem some_value_field {T : Type} (v : T)
    (h : (Kudasai.some v).isSome = true) :
    (Kudasai.some v).value h = v ∧
    collect [Kudasai.some v] = Kudasai.some [v] := by
  refine ⟨rfl, ?_⟩
  rw [collect, collect_go_cons_some]
  rfl

theorem some_value_field_witness :
    (Kudasai.some 5).value rfl = 5 ∧
    collect [Kudasai.some 5] = Kudasai.some [5] :=
  some_value_field 5 rfl

end Kudasai
